import Mathlib

namespace MailParser

/-! ### Character and list helpers -/

/-- ASCII lowercasing of a single character. -/
def lowerChar (c : Char) : Char :=
  if 'A' ≤ c ∧ c ≤ 'Z' then Char.ofNat (c.toNat + 32) else c

def lowerList (cs : List Char) : List Char := cs.map lowerChar

def lowerStr (s : String) : String := String.mk (lowerList s.data)

def isWsp (c : Char) : Bool := c = ' ' || c = '\t' || c = '\r'

def trimWsp (cs : List Char) : List Char :=
  ((cs.dropWhile isWsp).reverse.dropWhile isWsp).reverse

/-- Character of `data` at index `pos` (NUL when out of range). -/
def charAt (data : List Char) (pos : Nat) : Char := data.getD pos '\x00'

/-- Split a list at the first occurrence of `c`; `none` when `c` does not occur. -/
def splitFirst (c : Char) (cs : List Char) : Option (List Char × List Char) :=
  match cs.findIdx? (fun x => x = c) with
  | some i => some (cs.take i, cs.drop (i + 1))
  | none => none

/-- Split a list on every occurrence of `c`. -/
def splitOnChar (c : Char) (cs : List Char) : List (List Char) :=
  cs.foldr
    (fun x acc =>
      match acc with
      | g :: gs => if x = c then [] :: g :: gs else (x :: g) :: gs
      | [] => [[x]])
    [[]]

/-- Index of the first occurrence of the pattern `pat` in `data` at an index `≥ start`. -/
def findSub (data pat : List Char) (start : Nat) : Option Nat :=
  (List.range (data.length + 1)).find?
    (fun i => decide (start ≤ i) && pat.isPrefixOf (data.drop i))

/-- Strip one level of surrounding double quotes. -/
def unquote (cs : List Char) : List Char :=
  if 2 ≤ cs.length ∧ cs.head? = some '"' ∧ cs.getLast? = some '"' then
    (cs.drop 1).dropLast
  else cs

def slice (data : List Char) (s e : Nat) : List Char := (data.drop s).take (e - s)

/-! ### Data model -/

/-- Header map: list of (ASCII-lowercased field name, field value) pairs in order. -/
abbrev Headers := List (String × String)

def hdrGet (hs : Headers) (name : String) : Option String :=
  (hs.find? (fun kv => kv.1 == name)).map (fun kv => kv.2)

structure ContentType where
  ctype : String
  csubtype : Option String
  attributes : List (String × String)
deriving DecidableEq

def ContentType.get_type (c : ContentType) : String := c.ctype

def ContentType.get_subtype (c : ContentType) : Option String := c.csubtype

def ContentType.get_attribute (c : ContentType) (name : String) : Option String :=
  (c.attributes.find? (fun kv => kv.1 == name)).map (fun kv => kv.2)

def ContentType.has_attribute (c : ContentType) (name : String) : Bool :=
  (c.get_attribute name).isSome

def ContentType.is_attachment (c : ContentType) : Bool := c.ctype == "attachment"

/-- Modelled from the spec: the external header-value view for `Content-Type` /
`Content-Disposition` (§3, §6 of the spec; the structured header parser is not part
of the source under verification). The value is split at `;`; the first segment is
`type/subtype` (both ASCII-lowercased), the remaining segments are `name=value`
attributes with lowercased names and optionally double-quoted values. Parameter
continuations and MIME encoded words are not modelled (no claim exercises them). -/
def parse_content_type (v : String) : ContentType :=
  match splitOnChar ';' v.data with
  | [] => ⟨"", none, []⟩
  | t0 :: rest =>
    let t0 := trimWsp t0
    let tysub : List Char × Option (List Char) :=
      match splitFirst '/' t0 with
      | some (a, b) => (lowerList (trimWsp a), some (lowerList (trimWsp b)))
      | none => (lowerList t0, none)
    let attrs := rest.filterMap (fun seg =>
      match splitFirst '=' (trimWsp seg) with
      | some (n, val) => some (String.mk (lowerList (trimWsp n)), String.mk (unquote (trimWsp val)))
      | none => none)
    ⟨String.mk tysub.1, tysub.2.map String.mk, attrs⟩

def getContentType (hs : Headers) : Option ContentType :=
  (hdrGet hs "content-type").map parse_content_type

def getCTE (hs : Headers) : Option String := hdrGet hs "content-transfer-encoding"

def getContentDisposition (hs : Headers) : Option ContentType :=
  (hdrGet hs "content-disposition").map parse_content_type

/-- Decode result of a transfer decoder (src/decoders): a borrowed range of the
input, an owned decoded buffer, or nothing. -/
inductive DecodeResult where
  | Borrowed (s e : Nat)
  | Owned (bytes : List Char)
  | Empty
deriving DecidableEq

/-- MIME kinds, as in the source (`MimeType`, including the source's spelling
`MultipartAlernative`). -/
inductive MimeType where
  | MultipartMixed
  | MultipartAlernative
  | MultipartRelated
  | MultipartDigest
  | TextPlain
  | TextHtml
  | TextOther
  | Inline
  | Message
  | Other
deriving DecidableEq

/-! ### Modelled byte-stream cursor and boundary scanner (§4.6) -/

/-- Modelled from the spec (§4.6): `skip_crlf` — if the cursor points at `\r`,
advance; if at `\n`, advance; consumes at most one CRLF sequence. The function in
the repository lives in `parsers/mime.rs`, which is not under `src/`. -/
def skip_crlf (data : List Char) (pos : Nat) : Nat :=
  let p1 := if pos < data.length && charAt data pos = '\r' then pos + 1 else pos
  if p1 < data.length && charAt data p1 = '\n' then p1 + 1 else p1

/-- Modelled from the spec (§4.6): `seek_next_part` — scan forward for the literal
boundary bytes; on success the cursor lands immediately after them (`some newPos`);
on failure the cursor does not move (`none`). From `parsers/mime.rs`, not under `src/`. -/
def seekNextPart (data bnd : List Char) (pos : Nat) : Option Nat :=
  (findSub data bnd pos).map (fun i => i + bnd.length)

/-- Modelled from the spec (§4.6): `skip_multipart_end` — if the next two bytes are
`--`, advance past them and return true, else return false without moving.
From `parsers/mime.rs`, not under `src/`. -/
def skip_multipart_end (data : List Char) (pos : Nat) : Bool × Nat :=
  if pos + 2 ≤ data.length && charAt data pos = '-' && charAt data (pos + 1) = '-' then
    (true, pos + 2)
  else (false, pos)

/-- Modelled from the spec (§4.6): `get_bytes_to_boundary` — consume up to the next
boundary occurrence, returning `(bytes_consumed, Borrowed(start, boundaryStart))`;
`bytes_consumed` counts through the end of the boundary. With an empty boundary it
consumes to end of input. When the boundary is immediately adjacent the content is
`Empty` (spec §4.3 renders `Empty` as a newline / `?`), and when the boundary is
absent (or the cursor is at end of input) it returns `(0, Empty)` so that the
caller's recovery policy (§4.4 step 7) takes over. From `parsers/mime.rs`, not under `src/`. -/
def get_bytes_to_boundary (data : List Char) (start : Nat) (bnd : List Char) :
    Nat × DecodeResult :=
  if bnd.isEmpty then
    if start < data.length then (data.length - start, DecodeResult.Borrowed start data.length)
    else (0, DecodeResult.Empty)
  else
    match findSub data bnd start with
    | some i =>
        (i + bnd.length - start,
         if start < i then DecodeResult.Borrowed start i else DecodeResult.Empty)
    | none => (0, DecodeResult.Empty)

/-! ### Modelled header parser (§6) -/

/-- Index of the first `'\n'` at an index `≥ pos` (or `data.length`). -/
def findLineEnd (data : List Char) (pos : Nat) : Nat :=
  ((List.range data.length).find? (fun i => decide (pos ≤ i) && charAt data i = '\n')).getD
    data.length

/-- Modelled from the spec (§6): the external header parser `parse_headers`, which is
not part of the source under verification. It parses `Name: value` lines into the
header map (names ASCII-lowercased, values trimmed of blanks and `\r`), stops at the
terminating blank line WITHOUT consuming it (the spec's design note §9 requires the
blank line's `\n` to remain available as the lead of the `"\n--boundary"` literal),
skips lines without a colon, and reports whether at least one field was parsed.
Folded fields and MIME encoded words are not modelled (no claim exercises them).
Fuel-indexed for structural recursion; callers pass `data.length + 1`, which is
sufficient since every step consumes at least one character. -/
def parseHeadersGo (data : List Char) : Nat → Nat → Headers → Bool → Bool × Headers × Nat
  | 0, pos, hs, any => (any, hs, pos)
  | fuel + 1, pos, hs, any =>
    if data.length ≤ pos then (any, hs, pos)
    else if charAt data pos = '\n' then (any, hs, pos)
    else if charAt data pos = '\r' && charAt data (pos + 1) = '\n' then (any, hs, pos)
    else
      let eol := findLineEnd data pos
      let line := slice data pos eol
      let pos2 := min (eol + 1) data.length
      match splitFirst ':' line with
      | some (n, v) =>
          parseHeadersGo data fuel pos2
            (hs ++ [(String.mk (lowerList (trimWsp n)), String.mk (trimWsp v))]) true
      | none => parseHeadersGo data fuel pos2 hs any

def parse_headers (hs : Headers) (data : List Char) (pos : Nat) : Bool × Headers × Nat :=
  parseHeadersGo data (data.length + 1) pos hs false

/-! ### Message tree (src `Message`, `MessagePart`, `InlinePart`, `TextPart`, `BinaryPart`) -/

structure TextPart where
  headers : Option Headers
  contents : String
deriving DecidableEq

structure BinaryPart where
  headers : Option Headers
  contents : List Char
deriving DecidableEq

inductive InlinePart where
  | Text (t : TextPart)
  | InlineBinary (idx : Nat)
deriving DecidableEq

mutual
inductive MessagePart where
  | Text (t : TextPart)
  | Binary (b : BinaryPart)
  | InlineBinary (b : BinaryPart)
  | Msg (m : Message)
inductive Message where
  | mk (headers : Headers) (html_body : List InlinePart) (text_body : List InlinePart)
      (attachments : List MessagePart)
end

def Message.headers : Message → Headers
  | .mk h _ _ _ => h

def Message.html_body : Message → List InlinePart
  | .mk _ hb _ _ => hb

def Message.text_body : Message → List InlinePart
  | .mk _ _ tb _ => tb

def Message.attachments : Message → List MessagePart
  | .mk _ _ _ a => a

def Message.setHeaders : Message → Headers → Message
  | .mk _ hb tb a, h => .mk h hb tb a

def Message.pushHtml : Message → InlinePart → Message
  | .mk h hb tb a, p => .mk h (hb ++ [p]) tb a

def Message.pushTextB : Message → InlinePart → Message
  | .mk h hb tb a, p => .mk h hb (tb ++ [p]) a

def Message.pushAttachment : Message → MessagePart → Message
  | .mk h hb tb a, p => .mk h hb tb (a ++ [p])

def Message.empty : Message := .mk [] [] [] []

/-- Source `Message::is_empty`: true iff no header field was parsed. -/
def Message.is_empty (m : Message) : Bool := m.headers.isEmpty

/-! ### External collaborators (§6): decoders, format converters, charset registry -/

/-- Modelled from the spec (§6): the external transfer decoders
(`base64_decode`, `quoted_printable_decode`, signature
`(stream, start, boundary, escaped) → (bytes_read, DecodeResult)`), the pure format
converters `html_to_text` / `text_to_html`, and the charset registry, none of which
are part of the source under verification. The machine is parameterized over them;
theorems about `parse` hold for every instantiation. -/
structure Externals where
  decode_base64 : List Char → Nat → List Char → Bool → Nat × DecodeResult
  decode_quoted_printable : List Char → Nat → List Char → Bool → Nat × DecodeResult
  html_to_text : String → String
  text_to_html : String → String
  get_charset_decoder : String → Option (List Char → String)

/-- Source `result_to_string` (message.rs:45): charset decode when available, else
the bytes themselves (UTF-8 is the identity in the character-level embedding);
`Empty` becomes a single newline. -/
def result_to_string (ext : Externals) (result : DecodeResult) (data : List Char)
    (ct : Option ContentType) : String :=
  match result,
    ct.bind (fun c => (c.get_attribute "charset").bind (fun ch => ext.get_charset_decoder ch)) with
  | .Owned v, some dec => dec v
  | .Owned v, none => String.mk v
  | .Borrowed s e, some dec => dec (slice data s e)
  | .Borrowed s e, none => String.mk (slice data s e)
  | .Empty, _ => "\n"

/-- Source `result_to_bytes` (message.rs:69): `Empty` becomes a single `?`. -/
def result_to_bytes (result : DecodeResult) (data : List Char) : List Char :=
  match result with
  | .Owned v => v
  | .Borrowed s e => slice data s e
  | .Empty => ['?']

/-! ### MIME classifier (src `get_mime_type`, message.rs:77) -/

/-- Source `get_mime_type` (message.rs:77): maps (optional ContentType, parent kind)
to `(is_multipart, is_inline, is_text, mime_type)`. -/
def get_mime_type (content_type : Option ContentType) (parent_content_type : MimeType) :
    Bool × Bool × Bool × MimeType :=
  match content_type with
  | some ct =>
    if ct.get_type = "multipart" then
      (true, false, false,
        if ct.get_subtype = some "mixed" then MimeType.MultipartMixed
        else if ct.get_subtype = some "alternative" then MimeType.MultipartAlernative
        else if ct.get_subtype = some "related" then MimeType.MultipartRelated
        else if ct.get_subtype = some "digest" then MimeType.MultipartDigest
        else MimeType.Other)
    else if ct.get_type = "text" then
      if ct.get_subtype = some "plain" then (false, true, true, MimeType.TextPlain)
      else if ct.get_subtype = some "html" then (false, true, true, MimeType.TextHtml)
      else (false, false, true, MimeType.TextOther)
    else if ct.get_type = "image" ∨ ct.get_type = "audio" ∨ ct.get_type = "video" then
      (false, true, false, MimeType.Inline)
    else if ct.get_type = "message" ∧ ct.get_subtype = some "rfc822" then
      (false, false, false, MimeType.Message)
    else (false, false, false, MimeType.Other)
  | none =>
    match parent_content_type with
    | .MultipartDigest => (false, false, false, MimeType.Message)
    | _ => (false, true, true, MimeType.TextPlain)

/-! ### Parser state (src `MessageParserState`, message.rs:114) -/

structure MessageParserState where
  mime_type : MimeType
  mime_boundary : Option (List Char)
  in_alternative : Bool
  parts : Nat
  html_parts : Nat
  text_parts : Nat
  need_html_body : Bool
  need_text_body : Bool
deriving DecidableEq

/-- Source `MessageParserState::new` (message.rs:126). -/
def MessageParserState.new : MessageParserState :=
  { mime_type := .Message, mime_boundary := none, in_alternative := false,
    parts := 0, html_parts := 0, text_parts := 0,
    need_html_body := true, need_text_body := true }

/-- The traversal engine's full mutable context: cursor position, current message,
message stack, current level state, state stack and the scratch MIME part header map
(the input bytes are passed separately and never change). -/
structure MachineState where
  pos : Nat
  message : Message
  message_stack : List Message
  state : MessageParserState
  state_stack : List MessageParserState
  mime_part_header : Headers

/-! ### Leaf classification and placement (message.rs:253-413) -/

/-- Source message.rs:253-265: choose the transfer decoder from
`Content-Transfer-Encoding`; `true` means raw (`get_bytes_to_boundary`). -/
def decodeDispatch (ext : Externals) (hs : Headers) (data : List Char) (pos : Nat)
    (bnd : List Char) : Bool × (Nat × DecodeResult) :=
  match getCTE hs with
  | some enc =>
      if lowerStr enc == "base64" then (false, ext.decode_base64 data pos bnd false)
      else if lowerStr enc == "quoted-printable" then
        (false, ext.decode_quoted_printable data pos bnd false)
      else (true, get_bytes_to_boundary data pos bnd)
  | none => (true, get_bytes_to_boundary data pos bnd)

/-- Source message.rs:277-315 (the `bytes_read == 0` recovery block): `none` means
the outer loop terminates; `some (r, pos')` is the recovered payload and cursor. -/
def recoverZeroRead (data : List Char) (pos : Nat) (is_binary : Bool)
    (bnd : Option (List Char)) : Option (DecodeResult × Nat) :=
  if data.length ≤ pos || (is_binary && bnd.isNone) then none
  else
    let p1 := if !is_binary then get_bytes_to_boundary data pos (bnd.getD [])
              else (0, DecodeResult.Empty)
    if p1.1 = 0 then
      if bnd.isSome then
        let p2 := get_bytes_to_boundary data pos []
        if 0 < p2.1 then some (p2.2, pos + p2.1) else none
      else none
    else some (p1.2, pos + p1.1)

/-- Source message.rs:277-321: the recovery block together with the demotion it
applies on success (`mime_type = TextOther`, `is_inline = false`, `is_text = true`). -/
def applyRecovery (data : List Char) (pos : Nat) (is_binary : Bool)
    (bnd : Option (List Char)) : Option (MimeType × Bool × Bool × DecodeResult × Nat) :=
  (recoverZeroRead data pos is_binary bnd).map
    (fun rp => (MimeType.TextOther, false, true, rp.1, rp.2))

/-- Source message.rs:323-330: the final inline flag of a leaf. -/
def refineInline (is_inline : Bool) (hdr : Headers) (state : MessageParserState)
    (mime_type : MimeType) (ct : Option ContentType) : Bool :=
  is_inline
  && (match getContentDisposition hdr with
      | none => true
      | some d => !d.is_attachment)
  && (state.parts == 1
      || (!(state.mime_type == MimeType.MultipartRelated)
          && (mime_type == MimeType.Inline
              || (match ct with
                  | none => true
                  | some c => !(c.has_attribute "name")))))

/-- Source message.rs:332-354: compute `(add_to_html, add_to_text)` and update the
`need_*_body` flags. -/
def addFlags (state : MessageParserState) (mime_type : MimeType) (is_inline : Bool) :
    (Bool × Bool) × MessageParserState :=
  if state.mime_type == MimeType.MultipartAlernative then
    (match mime_type with
     | .TextHtml => (true, false)
     | .TextPlain => (false, true)
     | _ => (false, false), state)
  else if is_inline then
    let state :=
      if state.in_alternative && (state.need_text_body || state.need_html_body) then
        match mime_type with
        | .TextHtml => { state with need_text_body := false }
        | .TextPlain => { state with need_html_body := false }
        | _ => state
      else state
    ((state.need_html_body, state.need_text_body), state)
  else ((false, false), state)

/-- Source message.rs:356-413: build the leaf part and place it into the html body,
text body and/or attachments; returns the new message and the (taken) scratch
header map. -/
def placeLeaf (ext : Externals) (data : List Char) (bytes : DecodeResult)
    (ct : Option ContentType) (mime_type : MimeType) (is_text is_inline : Bool)
    (add_to_html add_to_text : Bool) (mph : Headers) (msg : Message) : Message × Headers :=
  if is_text then
    let text_part : TextPart :=
      ⟨if !mph.isEmpty then some mph else none, result_to_string ext bytes data ct⟩
    let is_html := mime_type == MimeType.TextHtml
    let msg :=
      if add_to_html && !is_html then
        msg.pushHtml (.Text ⟨none, ext.text_to_html text_part.contents⟩)
      else if add_to_text && is_html then
        msg.pushTextB (.Text ⟨none, ext.html_to_text text_part.contents⟩)
      else msg
    let msg :=
      if add_to_html && is_html then msg.pushHtml (.Text text_part)
      else if add_to_text && !is_html then msg.pushTextB (.Text text_part)
      else msg.pushAttachment (.Text text_part)
    (msg, [])
  else
    let binary_part : BinaryPart :=
      ⟨if !mph.isEmpty then some mph else none, result_to_bytes bytes data⟩
    let msg := if add_to_html then msg.pushHtml (.InlineBinary msg.attachments.length) else msg
    let msg := if add_to_text then msg.pushTextB (.InlineBinary msg.attachments.length) else msg
    let msg := msg.pushAttachment
      (if !is_inline then .Binary binary_part else .InlineBinary binary_part)
    (msg, [])

/-- The composition actually run on a leaf (message.rs:323-413): inline refinement,
body flags, placement. Returns (message, scratch header map, updated state). -/
def classifyAndPlace (ext : Externals) (data : List Char) (bytes : DecodeResult)
    (hdr : Headers) (ct : Option ContentType) (mime_type : MimeType)
    (is_inline is_text : Bool) (state : MessageParserState) (mph : Headers)
    (msg : Message) : Message × Headers × MessageParserState :=
  let ii := refineInline is_inline hdr state mime_type ct
  let fs := addFlags state mime_type ii
  let mm := placeLeaf ext data bytes ct mime_type is_text ii fs.1.1 fs.1.2 mph msg
  (mm.1, mm.2, fs.2)

/-! ### Alternative synthesis (message.rs:434-474) -/

/-- Source message.rs:437-474: on unwinding a `multipart/alternative` whose
`need_html_body` and `need_text_body` are both still set, copy the missing flavor
from the one that grew, converting text entries and keeping binary references. -/
def synthesize (ext : Externals) (state : MessageParserState) (m : Message) : Message :=
  let m :=
    if state.text_parts == m.text_body.length && !(state.html_parts == m.html_body.length) then
      match m with
      | .mk h hb tb a =>
          .mk h hb
            (tb ++ (hb.drop state.html_parts).map (fun p =>
              match p with
              | .Text t => InlinePart.Text ⟨none, ext.html_to_text t.contents⟩
              | .InlineBinary i => InlinePart.InlineBinary i)) a
    else m
  if state.html_parts == m.html_body.length && !(state.text_parts == m.text_body.length) then
    match m with
    | .mk h hb tb a =>
        .mk h
          (hb ++ (tb.drop state.text_parts).map (fun p =>
            match p with
            | .Text t => InlinePart.Text ⟨none, ext.text_to_html t.contents⟩
            | .InlineBinary i => InlinePart.InlineBinary i)) tb a
  else m

/-! ### Unwind loop (message.rs:415-496, the labelled `'inner` loop) -/

inductive UnwindRes where
  | brkU (pos : Nat) (msg : Message) (mstack : List Message)
      (state : MessageParserState) (sstack : List MessageParserState)
  | contU (pos : Nat) (msg : Message) (mstack : List Message)
      (state : MessageParserState) (sstack : List MessageParserState)
  | fuelOutU

/-- Source message.rs:419-432: restore the parent of a nested message; `none` is
the stack-underflow case (the source's debug assertion, which breaks the outer
loop after popping both stacks). -/
def unwindStep1 (msg : Message) (mstack : List Message) (state : MessageParserState)
    (sstack : List MessageParserState) :
    Option (Message × List Message × MessageParserState × List MessageParserState) :=
  if state.mime_type == MimeType.Message then
    match mstack, sstack with
    | pm :: pms, ps :: pss =>
        some (pm.pushAttachment (.Msg msg), pms,
          { ps with mime_boundary := state.mime_boundary }, pss)
    | _, _ => none
  else some (msg, mstack, state, sstack)

/-- Source message.rs:418-493, the `'inner` unwind loop, fuel-indexed (callers pass
`sstack.length + 1`, sufficient since every recursive call pops the state stack).
`brkU` is the source's `break 'outer`, `contU` falls out to the next sibling's
headers. -/
def unwindGo (ext : Externals) (data : List Char) :
    Nat → Nat → Message → List Message → MessageParserState → List MessageParserState →
    UnwindRes
  | 0, _, _, _, _, _ => .fuelOutU
  | fuel + 1, pos, msg, mstack, state, sstack =>
    match unwindStep1 msg mstack state sstack with
    | none => .brkU pos msg mstack.tail state sstack.tail
    | some (msg, mstack, state, sstack) =>
      let se := skip_multipart_end data pos
      if se.1 then
        let pos := se.2
        let msg :=
          if state.mime_type == MimeType.MultipartAlernative && state.need_html_body
              && state.need_text_body then
            synthesize ext state msg
          else msg
        match sstack with
        | ps :: pss =>
          match ps.mime_boundary with
          | some b =>
            match seekNextPart data b pos with
            | some pos2 => unwindGo ext data fuel pos2 msg mstack ps pss
            | none => .brkU pos msg mstack ps pss
          | none => .brkU pos msg mstack ps pss
        | [] => .brkU pos msg mstack state []
      else
        .contU (skip_crlf data pos) msg mstack state sstack

/-! ### The outer loop (message.rs:181-497) -/

inductive StepRes where
  | brk (st : MachineState)
  | cont (st : MachineState)
  | fuelOut

/-- Source message.rs:251-496: process one leaf part (decode, recover, classify,
place) and run the unwind loop. The caller has already parsed the headers and
ruled out the two descent branches. -/
def leafStep (ext : Externals) (data : List Char) (st : MachineState) (hdr : Headers)
    (ct : Option ContentType) (mt0 : MimeType) (is_inline0 is_text0 : Bool) : StepRes :=
  let pos := skip_crlf data st.pos
  let bnd := st.state.mime_boundary.getD []
  let dd := decodeDispatch ext hdr data pos bnd
  let is_binary := dd.1
  let outcome : Option (MimeType × Bool × Bool × DecodeResult × Nat) :=
    if dd.2.1 = 0 then applyRecovery data pos is_binary st.state.mime_boundary
    else some (mt0, is_inline0, is_text0, dd.2.2, pos + dd.2.1)
  match outcome with
  | none => .brk { st with pos := pos }
  | some (mt, is_inline1, is_text1, bytes, pos2) =>
    let cp := classifyAndPlace ext data bytes hdr ct mt is_inline1 is_text1 st.state
      st.mime_part_header st.message
    let st : MachineState := { st with
      pos := pos2, message := cp.1, mime_part_header := cp.2.1, state := cp.2.2 }
    if st.state.mime_boundary.isSome then
      match unwindGo ext data (st.state_stack.length + 1) st.pos st.message st.message_stack
          st.state st.state_stack with
      | .brkU pos msg mstack state sstack =>
          .brk { st with
            pos := pos, message := msg, message_stack := mstack,
            state := state, state_stack := sstack }
      | .contU pos msg mstack state sstack =>
          .cont { st with
            pos := pos, message := msg, message_stack := mstack,
            state := state, state_stack := sstack }
      | .fuelOutU => .fuelOut
    else if data.length ≤ st.pos then .brk st
    else .cont st

/-- Source message.rs:181-497: the `'outer` loop, fuel-indexed (each iteration
strictly advances the cursor, so `data.length + 2` fuel always suffices —
see `parseLoop_isSome`). `none` is fuel exhaustion and never occurs. -/
def parseLoop (ext : Externals) (data : List Char) : Nat → MachineState → Option MachineState
  | 0, _ => none
  | fuel + 1, st =>
    let intoMsg := st.state.mime_type == MimeType.Message
    let target := if intoMsg then st.message.headers else st.mime_part_header
    let ph := parse_headers target data st.pos
    let st1 : MachineState :=
      if intoMsg then
        { st with pos := ph.2.2, message := st.message.setHeaders ph.2.1 }
      else { st with pos := ph.2.2, mime_part_header := ph.2.1 }
    if !ph.1 then some st1
    else
      let state1 := { st1.state with parts := st1.state.parts + 1 }
      let hdr := ph.2.1
      let ct := getContentType hdr
      let gm := get_mime_type ct state1.mime_type
      let is_multipart := gm.1
      let is_inline0 := gm.2.1
      let is_text0 := gm.2.2.1
      let mt0 := gm.2.2.2
      if is_multipart then
        match ct.bind (fun c => c.get_attribute "boundary") with
        | some b =>
          let bndry := '\n' :: '-' :: '-' :: b.data
          match seekNextPart data bndry st1.pos with
          | some pos2 =>
            let new_state : MessageParserState :=
              { mime_type := mt0, mime_boundary := some bndry,
                in_alternative := state1.in_alternative || mt0 == MimeType.MultipartAlernative,
                parts := 0,
                html_parts := st1.message.html_body.length,
                text_parts := st1.message.text_body.length,
                need_html_body := state1.need_html_body,
                need_text_body := state1.need_text_body }
            parseLoop ext data fuel
              { st1 with
                pos := skip_crlf data pos2, mime_part_header := [],
                state := new_state, state_stack := state1 :: st1.state_stack }
          | none =>
            -- message.rs:226-229: declared boundary not found, demote to text
            match leafStep ext data { st1 with state := state1 } hdr ct MimeType.TextOther
                is_inline0 true with
            | .brk st2 => some st2
            | .cont st2 => parseLoop ext data fuel st2
            | .fuelOut => none
        | none =>
          -- multipart without a boundary attribute falls through to the leaf path
          match leafStep ext data { st1 with state := state1 } hdr ct mt0 is_inline0 is_text0 with
          | .brk st2 => some st2
          | .cont st2 => parseLoop ext data fuel st2
          | .fuelOut => none
      else if mt0 == MimeType.Message then
        let new_state : MessageParserState :=
          { mime_type := .Message, mime_boundary := state1.mime_boundary,
            in_alternative := false, parts := 0, html_parts := 0, text_parts := 0,
            need_html_body := true, need_text_body := true }
        parseLoop ext data fuel
          { st1 with
            pos := skip_crlf data st1.pos, mime_part_header := [],
            message := Message.empty,
            message_stack := st1.message :: st1.message_stack,
            state := new_state,
            state_stack := { state1 with mime_boundary := none } :: st1.state_stack }
      else
        match leafStep ext data { st1 with state := state1 } hdr ct mt0 is_inline0 is_text0 with
        | .brk st2 => some st2
        | .cont st2 => parseLoop ext data fuel st2
        | .fuelOut => none

/-- The initial machine context (message.rs:170-179). -/
def initMachine : MachineState :=
  { pos := 0, message := Message.empty, message_stack := [],
    state := MessageParserState.new, state_stack := [], mime_part_header := [] }

/-- Source message.rs:499-504: after the outer loop, reattach the current message to
its stacked parents. -/
def finishMachine (st : MachineState) : Message :=
  st.message_stack.foldl
    (fun msg prev => if msg.is_empty then prev else prev.pushAttachment (.Msg msg))
    st.message

/-- The message produced by a full run of the traversal engine (before the final
emptiness check). -/
def finalMessage (ext : Externals) (data : List Char) : Message :=
  match parseLoop ext data (data.length + 2) initMachine with
  | some st => finishMachine st
  | none => Message.empty

/-- Source `Message::parse` (message.rs:170-511): run the traversal engine and
return the top message iff its headers are non-empty. -/
def Message.parse (ext : Externals) (data : List Char) : Option Message :=
  match parseLoop ext data (data.length + 2) initMachine with
  | some st =>
      let m := finishMachine st
      if !m.is_empty then some m else none
  | none => none


/-! ### Spec-side definitions (written from the spec's words, for comparison) -/

/-- The classification table of spec §4.1, transcribed row by row (first match wins):
output is `(is_multipart, is_inline_candidate, is_text, kind)`. -/
def specMimeTable (ct : Option ContentType) (parent : MimeType) :
    Bool × Bool × Bool × MimeType :=
  match ct with
  | some c =>
    if c.ctype = "multipart" ∧ c.csubtype = some "mixed" then
      (true, false, false, MimeType.MultipartMixed)
    else if c.ctype = "multipart" ∧ c.csubtype = some "alternative" then
      (true, false, false, MimeType.MultipartAlernative)
    else if c.ctype = "multipart" ∧ c.csubtype = some "related" then
      (true, false, false, MimeType.MultipartRelated)
    else if c.ctype = "multipart" ∧ c.csubtype = some "digest" then
      (true, false, false, MimeType.MultipartDigest)
    else if c.ctype = "multipart" then (true, false, false, MimeType.Other)
    else if c.ctype = "text" ∧ c.csubtype = some "plain" then
      (false, true, true, MimeType.TextPlain)
    else if c.ctype = "text" ∧ c.csubtype = some "html" then
      (false, true, true, MimeType.TextHtml)
    else if c.ctype = "text" then (false, false, true, MimeType.TextOther)
    else if c.ctype = "image" ∨ c.ctype = "audio" ∨ c.ctype = "video" then
      (false, true, false, MimeType.Inline)
    else if c.ctype = "message" ∧ c.csubtype = some "rfc822" then
      (false, false, false, MimeType.Message)
    else (false, false, false, MimeType.Other)
  | none =>
    if parent = MimeType.MultipartDigest then (false, false, false, MimeType.Message)
    else (false, true, true, MimeType.TextPlain)

/-- The recovery policy as the spec words it (§4.4 step 7 / §7): on `bytes_read == 0`,
terminate at end-of-input or for raw encoding without boundary; otherwise retry as
raw-to-boundary, then (when a boundary exists) raw to end of input; a successful
retry demotes the part to `TextOther`, not inline, `is_text = true`. -/
def recoverSpec (data : List Char) (pos : Nat) (is_binary : Bool)
    (bnd : Option (List Char)) : Option (MimeType × Bool × Bool × DecodeResult × Nat) :=
  if data.length ≤ pos ∨ (is_binary = true ∧ bnd = none) then none
  else
    let p1 := get_bytes_to_boundary data pos (bnd.getD [])
    if p1.1 ≠ 0 then some (MimeType.TextOther, false, true, p1.2, pos + p1.1)
    else if bnd.isSome then
      let p2 := get_bytes_to_boundary data pos []
      if p2.1 ≠ 0 then some (MimeType.TextOther, false, true, p2.2, pos + p2.1)
      else none
    else none

/-- Spec §4.5: the entry appended to `text_body` for an entry of `html_body` —
a headerless text part holding the html→text conversion, or the same binary
reference. -/
def convertToText (ext : Externals) : InlinePart → InlinePart
  | .Text t => .Text ⟨none, ext.html_to_text t.contents⟩
  | .InlineBinary i => .InlineBinary i

/-- Spec §4.5, symmetric case: text→html conversion, binary references verbatim. -/
def convertToHtml (ext : Externals) : InlinePart → InlinePart
  | .Text t => .Text ⟨none, ext.text_to_html t.contents⟩
  | .InlineBinary i => .InlineBinary i

/-- Well-formedness of a message tree (spec §3 invariant / §8): every
`InlineBinary` index stored in `html_body` or `text_body` is a valid position in
the same level's `attachments`, recursively in embedded messages. -/
inductive WFMessage : Message → Prop where
  | intro (h : Headers) (hb tb : List InlinePart) (att : List MessagePart)
      (hhb : ∀ i, InlinePart.InlineBinary i ∈ hb → i < att.length)
      (htb : ∀ i, InlinePart.InlineBinary i ∈ tb → i < att.length)
      (hrec : ∀ m, MessagePart.Msg m ∈ att → WFMessage m) :
      WFMessage (Message.mk h hb tb att)

/-- Cursor position carried by an unwind outcome (`none` for fuel exhaustion). -/
def UnwindRes.posOf : UnwindRes → Option Nat
  | .brkU p _ _ _ _ => some p
  | .contU p _ _ _ _ => some p
  | .fuelOutU => none

/-- A concrete instantiation of the external collaborators, used to evaluate the
machine on closed inputs: decoders that read nothing (exercising the recovery
policy) and identity format converters. -/
def extId : Externals :=
  { decode_base64 := fun _ _ _ _ => (0, DecodeResult.Empty),
    decode_quoted_printable := fun _ _ _ _ => (0, DecodeResult.Empty),
    html_to_text := fun s => s,
    text_to_html := fun s => s,
    get_charset_decoder := fun _ => none }

/-- Spec §8 scenario 1: a plain-text message without MIME headers. -/
def inputPlainText : List Char := "Subject: hi\n\nhello\n".data

/-- Spec §8 scenario 2: a `multipart/alternative` with a single `text/html` child. -/
def inputAlternativeHtml : List Char :=
  "Content-Type: multipart/alternative; boundary=X\n\n--X\nContent-Type: text/html\n\n<b>hi</b>\n--X--\n".data

/-- A `multipart/alternative` whose single `text/html` child carries
`Content-Disposition: attachment`. -/
def inputAlternativeAttachment : List Char :=
  "Content-Type: multipart/alternative; boundary=X\n\n--X\nContent-Type: text/html\nContent-Disposition: attachment\n\n<b>hi</b>\n--X--\n".data

/-- C4: the MIME classifier `get_mime_type` implements exactly the
first-match-wins table of spec §4.1 for every (optional ContentType, parent kind)
pair, including the parent-driven default (`message/rfc822` under
`multipart/digest`, `text/plain` otherwise) when no ContentType is present. -/
theorem get_mime_type_matches_spec_table :
    ∀ (ct : Option ContentType) (parent : MimeType),
      get_mime_type ct parent = specMimeTable ct parent := by
  intro ct parent
  cases ct with
  | none => cases parent <;> rfl
  | some c =>
    obtain ⟨t, st, attrs⟩ := c
    simp only [get_mime_type, specMimeTable, ContentType.get_type, ContentType.get_subtype]
    by_cases h1 : t = "multipart"
    · by_cases s1 : st = some "mixed"
      · simp [h1, s1]
      · by_cases s2 : st = some "alternative"
        · simp [h1, s1, s2]
        · by_cases s3 : st = some "related"
          · simp [h1, s1, s2, s3]
          · by_cases s4 : st = some "digest"
            · simp [h1, s1, s2, s3, s4]
            · simp [h1, s1, s2, s3, s4]
    · by_cases h2 : t = "text"
      · by_cases s1 : st = some "plain"
        · simp [h1, h2, s1]
        · by_cases s2 : st = some "html"
          · simp [h1, h2, s1, s2]
          · simp [h1, h2, s1, s2]
      · by_cases h3 : t = "image" ∨ t = "audio" ∨ t = "video"
        · simp [h1, h2, h3]
        · by_cases h4 : t = "message" ∧ st = some "rfc822"
          · simp [h1, h2, h3, h4]
          · simp [h1, h2, h3, h4]


/-- C6: the final inline flag of a leaf (message.rs:323-330) is true iff the
inline-candidate flag in effect is set AND (no Content-Disposition header OR the
disposition is not an attachment) AND (the part is the first of its level OR (the
parent level is not multipart/related AND (the kind is Inline OR the ContentType
has no name attribute))). -/
theorem refineInline_iff (is_inline : Bool) (hdr : Headers) (state : MessageParserState)
    (mt : MimeType) (ct : Option ContentType) :
    refineInline is_inline hdr state mt ct = true ↔
      (is_inline = true
        ∧ (∀ d, getContentDisposition hdr = some d → d.is_attachment = false)
        ∧ (state.parts = 1
            ∨ (state.mime_type ≠ MimeType.MultipartRelated
                ∧ (mt = MimeType.Inline
                    ∨ ∀ c, ct = some c → c.has_attribute "name" = false)))) := by
  unfold refineInline
  cases hcd : getContentDisposition hdr <;> cases ct <;>
    simp [hcd, Bool.and_eq_true, Bool.or_eq_true, beq_iff_eq, beq_eq_false_iff_ne,
      and_assoc]

/-- C5: when the declared transfer decoding reads zero bytes, the recovery block
(message.rs:277-321) behaves exactly as the spec's case analysis: terminate at
end-of-input or for raw encoding without a boundary; otherwise retry
raw-to-boundary, then raw to end of input when a boundary exists, else terminate;
every successful retry demotes the part to TextOther with is_inline = false and
is_text = true. The hypothesis records the calling context: when the encoding was
raw, the original decode was already raw-to-boundary and read zero bytes. -/
theorem applyRecovery_matches_spec (data : List Char) (pos : Nat) (is_binary : Bool)
    (bnd : Option (List Char))
    (h : is_binary = true → (get_bytes_to_boundary data pos (bnd.getD [])).1 = 0) :
    applyRecovery data pos is_binary bnd = recoverSpec data pos is_binary bnd := by
  unfold applyRecovery recoverZeroRead recoverSpec
  by_cases h1 : data.length ≤ pos
  · cases is_binary <;> cases bnd <;> simp [h1]
  · cases is_binary
    · cases bnd <;> simp [h1] <;> split_ifs <;> simp_all
    · cases bnd with
      | none => simp [h1]
      | some b =>
        have h0 : (get_bytes_to_boundary data pos b).1 = 0 := h rfl
        simp [h1]
        split_ifs <;> simp_all


/-- Witness for `applyRecovery_matches_spec`: a concrete raw-encoded part whose
declared boundary is absent from the stream. -/
theorem applyRecovery_matches_spec_witness :
    (true = true → (get_bytes_to_boundary "ab".data 0 ((some ['X']).getD [])).1 = 0)
    ∧ applyRecovery "ab".data 0 true (some ['X']) = recoverSpec "ab".data 0 true (some ['X']) :=
  ⟨fun _ => rfl, applyRecovery_matches_spec "ab".data 0 true (some ['X']) (fun _ => rfl)⟩

/-- C1 counterexample: on the plain-text input `"Subject: hi\n\nhello\n"` the
parser synthesizes an HTML body entry (message.rs:368-372), so `html_body` has
length 1 and is not empty as the claim states. -/
theorem parse_plain_text_html_body_not_empty :
    (Message.parse extId inputPlainText).map (fun m => m.html_body.length) = some 1
    ∧ (Message.parse extId inputPlainText).map Message.html_body ≠ some [] :=
  ⟨rfl, by decide⟩

/-- C1 (amended): parsing `"Subject: hi\n\nhello\n"` returns one Message whose
text_body has length 1 with headerless contents "hello\n" and whose attachments
are empty; its html_body is not empty but holds exactly one synthesized headerless
entry containing `text_to_html("hello\n")`. -/
theorem parse_plain_text_amended (ext : Externals) :
    Message.parse ext inputPlainText =
      some (Message.mk [("subject", "hi")]
        [InlinePart.Text ⟨none, ext.text_to_html "hello\n"⟩]
        [InlinePart.Text ⟨none, "hello\n"⟩] []) := rfl

/-- C3: on unwinding a `multipart/alternative` with both body flavors still
needed, if text_body kept its saved length T0 while html_body grew past H0, each
entry appended to html_body from index H0 on is mirrored, in order, into text_body
(text entries replaced by headerless html→text conversions, binary references kept
verbatim), and symmetrically with text→html conversion when only text_body grew;
in particular a `multipart/alternative` holding a single text/html child
`<b>hi</b>` parses to an html_body holding the HTML and a text_body holding one
synthesized entry equal to `html_to_text("<b>hi</b>")`. -/
theorem alternative_synthesis :
    (∀ (ext : Externals) (state : MessageParserState) (m : Message),
        (state.text_parts = m.text_body.length ∧ state.html_parts ≠ m.html_body.length →
          synthesize ext state m =
            Message.mk m.headers m.html_body
              (m.text_body ++ (m.html_body.drop state.html_parts).map (convertToText ext))
              m.attachments)
        ∧ (state.html_parts = m.html_body.length ∧ state.text_parts ≠ m.text_body.length →
          synthesize ext state m =
            Message.mk m.headers
              (m.html_body ++ (m.text_body.drop state.text_parts).map (convertToHtml ext))
              m.text_body m.attachments))
    ∧ ∀ ext : Externals,
        Message.parse ext inputAlternativeHtml =
          some (Message.mk [("content-type", "multipart/alternative; boundary=X")]
            [InlinePart.Text ⟨some [("content-type", "text/html")], "<b>hi</b>"⟩]
            [InlinePart.Text ⟨none, ext.html_to_text "<b>hi</b>"⟩] []) := by
  constructor
  · intro ext state m
    obtain ⟨h, hb, tb, att⟩ := m
    constructor
    · rintro ⟨h1, h2⟩
      simp_all [synthesize, Message.headers, Message.html_body, Message.text_body,
        Message.attachments, convertToText]
      congr 1
    · rintro ⟨h1, h2⟩
      simp_all [synthesize, Message.headers, Message.html_body, Message.text_body,
        Message.attachments, convertToHtml]
      congr 1
  · intro ext
    rfl


/-- Witness for `alternative_synthesis`: a level that produced one HTML entry and
no text entry gets that entry mirrored into text_body. -/
theorem alternative_synthesis_witness :
    synthesize extId ⟨MimeType.MultipartAlernative, none, true, 1, 0, 0, true, true⟩
        (Message.mk [] [InlinePart.Text ⟨none, "x"⟩] [] []) =
      Message.mk [] [InlinePart.Text ⟨none, "x"⟩] [InlinePart.Text ⟨none, "x"⟩] [] :=
  (alternative_synthesis.1 extId ⟨MimeType.MultipartAlernative, none, true, 1, 0, 0, true, true⟩
    (Message.mk [] [InlinePart.Text ⟨none, "x"⟩] [] [])).1 ⟨rfl, by decide⟩

set_option maxRecDepth 8000 in
/-- C2 counterexample: in `inputAlternativeAttachment` the single text/html child
carries `Content-Disposition: attachment`, yet the parser places it in `html_body`
(and, via synthesis, `text_body`) and the attachments list stays empty — because a
direct child of `multipart/alternative` is placed by content type alone
(message.rs:332-338). -/
theorem attachment_disposition_kept_in_alternative_body :
    (Message.parse extId inputAlternativeAttachment).map Message.html_body =
      some [InlinePart.Text ⟨some [("content-type", "text/html"),
        ("content-disposition", "attachment")], "<b>hi</b>"⟩]
    ∧ (Message.parse extId inputAlternativeAttachment).map Message.attachments = some []
    ∧ (getContentDisposition [("content-type", "text/html"),
        ("content-disposition", "attachment")]).map ContentType.is_attachment = some true :=
  ⟨rfl, rfl, rfl⟩

/-- C2 (amended): a leaf whose headers carry `Content-Disposition: attachment` is
appended to the enclosing message's attachments, leaving html_body and text_body
untouched (so no body entry is, or refers by index to, such a part) — except that
a text/plain or text/html direct child of a `multipart/alternative` is placed by
content type alone, its disposition ignored. -/
theorem attachment_disposition_placement (ext : Externals) (data : List Char)
    (bytes : DecodeResult) (hdr : Headers) (ct : Option ContentType) (mt : MimeType)
    (is_inline is_text : Bool) (state : MessageParserState) (mph : Headers) (msg : Message)
    (hatt : ∃ d, getContentDisposition hdr = some d ∧ d.is_attachment = true)
    (hexc : state.mime_type ≠ MimeType.MultipartAlernative
      ∨ (mt ≠ MimeType.TextHtml ∧ mt ≠ MimeType.TextPlain)) :
    (classifyAndPlace ext data bytes hdr ct mt is_inline is_text state mph msg).1.html_body
        = msg.html_body
    ∧ (classifyAndPlace ext data bytes hdr ct mt is_inline is_text state mph msg).1.text_body
        = msg.text_body
    ∧ ∃ p, (classifyAndPlace ext data bytes hdr ct mt is_inline is_text state mph msg).1.attachments
        = msg.attachments ++ [p] := by
  obtain ⟨d, hd, hda⟩ := hatt
  have hri : refineInline is_inline hdr state mt ct = false := by
    simp [refineInline, hd, hda]
  obtain ⟨h, hb, tb, att⟩ := msg
  by_cases halt : state.mime_type = MimeType.MultipartAlernative
  · rcases hexc with hc | ⟨hc1, hc2⟩
    · exact absurd halt hc
    · cases mt <;> cases is_text <;>
        simp_all [classifyAndPlace, addFlags, placeLeaf, Message.html_body,
          Message.text_body, Message.attachments, Message.pushHtml, Message.pushTextB,
          Message.pushAttachment]
  · cases is_text <;>
      simp_all [classifyAndPlace, addFlags, placeLeaf, Message.html_body,
        Message.text_body, Message.attachments, Message.pushHtml, Message.pushTextB,
        Message.pushAttachment]

/-- Witness for `attachment_disposition_placement`: a text/plain leaf with an
attachment disposition under a non-alternative parent. -/
theorem attachment_disposition_placement_witness :
    (classifyAndPlace extId [] DecodeResult.Empty [("content-disposition", "attachment")]
        none MimeType.TextPlain true true MessageParserState.new [] Message.empty).1.html_body
        = Message.empty.html_body
    ∧ (classifyAndPlace extId [] DecodeResult.Empty [("content-disposition", "attachment")]
        none MimeType.TextPlain true true MessageParserState.new [] Message.empty).1.text_body
        = Message.empty.text_body
    ∧ ∃ p, (classifyAndPlace extId [] DecodeResult.Empty [("content-disposition", "attachment")]
        none MimeType.TextPlain true true MessageParserState.new [] Message.empty).1.attachments
        = Message.empty.attachments ++ [p] :=
  attachment_disposition_placement extId [] DecodeResult.Empty
    [("content-disposition", "attachment")] none MimeType.TextPlain true true
    MessageParserState.new [] Message.empty
    ⟨parse_content_type "attachment", rfl, rfl⟩ (Or.inl (by decide))


/-! ### Accessor lemmas for the message tree -/

theorem headers_setHeaders (m : Message) (h : Headers) : (m.setHeaders h).headers = h := by
  cases m; rfl

theorem html_body_setHeaders (m : Message) (h : Headers) :
    (m.setHeaders h).html_body = m.html_body := by
  cases m; rfl

theorem text_body_setHeaders (m : Message) (h : Headers) :
    (m.setHeaders h).text_body = m.text_body := by
  cases m; rfl

theorem attachments_setHeaders (m : Message) (h : Headers) :
    (m.setHeaders h).attachments = m.attachments := by
  cases m; rfl

theorem headers_pushAttachment (m : Message) (p : MessagePart) :
    (m.pushAttachment p).headers = m.headers := by
  cases m; rfl

theorem html_body_pushAttachment (m : Message) (p : MessagePart) :
    (m.pushAttachment p).html_body = m.html_body := by
  cases m; rfl

theorem text_body_pushAttachment (m : Message) (p : MessagePart) :
    (m.pushAttachment p).text_body = m.text_body := by
  cases m; rfl

theorem attachments_pushAttachment (m : Message) (p : MessagePart) :
    (m.pushAttachment p).attachments = m.attachments ++ [p] := by
  cases m; rfl

theorem html_body_pushHtml (m : Message) (p : InlinePart) :
    (m.pushHtml p).html_body = m.html_body ++ [p] := by
  cases m; rfl

theorem text_body_pushHtml (m : Message) (p : InlinePart) :
    (m.pushHtml p).text_body = m.text_body := by
  cases m; rfl

theorem attachments_pushHtml (m : Message) (p : InlinePart) :
    (m.pushHtml p).attachments = m.attachments := by
  cases m; rfl

theorem html_body_pushTextB (m : Message) (p : InlinePart) :
    (m.pushTextB p).html_body = m.html_body := by
  cases m; rfl

theorem text_body_pushTextB (m : Message) (p : InlinePart) :
    (m.pushTextB p).text_body = m.text_body ++ [p] := by
  cases m; rfl

theorem attachments_pushTextB (m : Message) (p : InlinePart) :
    (m.pushTextB p).attachments = m.attachments := by
  cases m; rfl

theorem parseHeadersGo_any_true (data : List Char) :
    ∀ (fuel pos : Nat) (hs : Headers), (parseHeadersGo data fuel pos hs true).1 = true := by
  intro fuel
  induction fuel with
  | zero => intro pos hs; rfl
  | succ n ih =>
    intro pos hs
    simp only [parseHeadersGo]
    split_ifs <;> try rfl
    cases h : splitFirst ':' (slice data pos (findLineEnd data pos)) with
    | none => exact ih _ _
    | some nv => exact ih _ _

theorem parseHeadersGo_false_headers (data : List Char) :
    ∀ (fuel pos : Nat) (hs : Headers),
      (parseHeadersGo data fuel pos hs false).1 = false →
      (parseHeadersGo data fuel pos hs false).2.1 = hs := by
  intro fuel
  induction fuel with
  | zero => intro pos hs _; rfl
  | succ n ih =>
    intro pos hs h
    simp only [parseHeadersGo] at h ⊢
    split_ifs at h ⊢ <;> try rfl
    cases hsp : splitFirst ':' (slice data pos (findLineEnd data pos)) with
    | none =>
      simp only [hsp] at h ⊢
      exact ih _ _ h
    | some nv =>
      simp only [hsp] at h
      rw [parseHeadersGo_any_true] at h
      exact absurd h (by simp)

/-- C8: `parse` returns a message iff the parsed top-level message's headers map
is non-empty: the returned message is exactly the machine's final message and has
non-empty headers, and when no header field at all is parsed at the start of the
input, `parse` returns none. -/
theorem parse_some_iff_headers_nonempty (ext : Externals) (data : List Char) :
    ((Message.parse ext data).isSome = !(finalMessage ext data).headers.isEmpty)
    ∧ (∀ m, Message.parse ext data = some m → m = finalMessage ext data ∧ m.headers ≠ [])
    ∧ ((parse_headers [] data 0).1 = false → Message.parse ext data = none) := by
  refine ⟨?_, ?_, ?_⟩
  · unfold Message.parse finalMessage
    cases hp : parseLoop ext data (data.length + 2) initMachine with
    | none => simp [Message.is_empty, Message.empty, Message.headers]
    | some st =>
      simp only [Message.is_empty]
      split_ifs with hh <;> simp_all
  · intro m hm
    unfold Message.parse at hm
    unfold finalMessage
    cases hp : parseLoop ext data (data.length + 2) initMachine with
    | none => simp [hp] at hm
    | some st =>
      simp only [hp, Message.is_empty] at hm
      split_ifs at hm with hh
      cases hm
      exact ⟨rfl, by simpa using hh⟩
  · intro h
    unfold Message.parse
    rw [show data.length + 2 = (data.length + 1) + 1 from rfl]
    simp only [parseLoop, initMachine, MessageParserState.new, parse_headers] at h ⊢
    have hhd := parseHeadersGo_false_headers data (data.length + 1) 0 [] h
    simp [h, hhd, Message.empty, Message.setHeaders, finishMachine, Message.is_empty,
      Message.headers]


/-- Witness for `parse_some_iff_headers_nonempty`: empty input parses no header
field, so no message is returned. -/
theorem parse_empty_input_none : Message.parse extId [] = none :=
  (parse_some_iff_headers_nonempty extId []).2.2 rfl

/-! ### Cursor monotonicity lemmas -/

theorem skip_crlf_ge (data : List Char) (pos : Nat) : pos ≤ skip_crlf data pos := by
  unfold skip_crlf
  dsimp only
  split_ifs <;> omega

theorem findSub_ge (data pat : List Char) (start : Nat) (i : Nat)
    (h : findSub data pat start = some i) : start ≤ i := by
  unfold findSub at h
  have := List.find?_some h
  simp at this
  exact this.1

theorem seekNextPart_ge (data bnd : List Char) (pos p : Nat)
    (h : seekNextPart data bnd pos = some p) : pos ≤ p := by
  unfold seekNextPart at h
  cases hf : findSub data bnd pos with
  | none => simp [hf] at h
  | some i =>
    simp [hf] at h
    have := findSub_ge data bnd pos i hf
    omega

theorem skip_multipart_end_ge (data : List Char) (pos : Nat) :
    pos ≤ (skip_multipart_end data pos).2 := by
  unfold skip_multipart_end
  split_ifs <;> simp

theorem findLineEnd_ge (data : List Char) (pos : Nat) (h : pos < data.length) :
    pos ≤ findLineEnd data pos := by
  unfold findLineEnd
  cases hf : (List.range data.length).find? (fun i => decide (pos ≤ i) && charAt data i = '\n') with
  | none => simp; omega
  | some i =>
    have := List.find?_some hf
    simp at this ⊢
    exact this.1

theorem parseHeadersGo_pos_mono (data : List Char) :
    ∀ (fuel pos : Nat) (hs : Headers) (any : Bool),
      pos ≤ (parseHeadersGo data fuel pos hs any).2.2 := by
  intro fuel
  induction fuel with
  | zero => intro pos hs any; simp [parseHeadersGo]
  | succ n ih =>
    intro pos hs any
    simp only [parseHeadersGo]
    split_ifs with h1 h2 h3 <;> try simp
    have hfl := findLineEnd_ge data pos (by omega)
    have hp2 : pos ≤ min (findLineEnd data pos + 1) data.length := by omega
    cases hsp : splitFirst ':' (slice data pos (findLineEnd data pos)) with
    | none => exact le_trans hp2 (ih _ _ _)
    | some nv => exact le_trans hp2 (ih _ _ _)

theorem parseHeadersGo_true_strict (data : List Char) :
    ∀ (fuel pos : Nat) (hs : Headers),
      (parseHeadersGo data fuel pos hs false).1 = true →
      pos < (parseHeadersGo data fuel pos hs false).2.2 ∧ pos < data.length := by
  intro fuel
  induction fuel with
  | zero => intro pos hs h; simp [parseHeadersGo] at h
  | succ n ih =>
    intro pos hs h
    simp only [parseHeadersGo] at h ⊢
    split_ifs at h ⊢ with h1 h2 h3
    have hfl := findLineEnd_ge data pos (by omega)
    have hp2 : pos < min (findLineEnd data pos + 1) data.length := by omega
    cases hsp : splitFirst ':' (slice data pos (findLineEnd data pos)) with
    | none =>
      simp only [hsp] at h ⊢
      have := (ih _ _ h).1
      have := parseHeadersGo_pos_mono data n (min (findLineEnd data pos + 1) data.length) hs false
      constructor
      · omega
      · omega
    | some nv =>
      simp only [hsp] at h ⊢
      have := parseHeadersGo_pos_mono data n (min (findLineEnd data pos + 1) data.length)
        (hs ++ [(String.mk (lowerList (trimWsp nv.1)), String.mk (trimWsp nv.2))]) true
      constructor
      · omega
      · omega


/-! ### Unwind loop lemmas -/

theorem unwindGo_pos_ge (ext : Externals) (data : List Char) :
    ∀ (fuel pos : Nat) (msg : Message) (mstack : List Message)
      (state : MessageParserState) (sstack : List MessageParserState) (p : Nat),
      (unwindGo ext data fuel pos msg mstack state sstack).posOf = some p → pos ≤ p := by
  intro fuel
  induction fuel with
  | zero =>
    intro pos msg mstack state sstack p h
    simp [unwindGo, UnwindRes.posOf] at h
  | succ n ih =>
    intro pos msg mstack state sstack p h
    have hsme := skip_multipart_end_ge data pos
    simp only [unwindGo] at h
    split at h
    · simp [UnwindRes.posOf] at h
      omega
    · split at h
      · split at h
        · split at h
          · split at h
            · exact le_trans (le_trans hsme (seekNextPart_ge data _ _ _ (by assumption)))
                (ih _ _ _ _ _ _ h)
            · simp [UnwindRes.posOf] at h
              omega
          · simp [UnwindRes.posOf] at h
            omega
        · simp [UnwindRes.posOf] at h
          omega
      · simp [UnwindRes.posOf] at h
        have := skip_crlf_ge data pos
        omega

theorem unwindStep1_stack_le (msg : Message) (mstack : List Message)
    (state : MessageParserState) (sstack : List MessageParserState)
    (r : Message × List Message × MessageParserState × List MessageParserState)
    (h : unwindStep1 msg mstack state sstack = some r) :
    r.2.2.2.length ≤ sstack.length := by
  unfold unwindStep1 at h
  split at h
  · cases mstack with
    | nil => cases sstack <;> simp at h
    | cons pm pms =>
      cases sstack with
      | nil => simp at h
      | cons ps pss =>
        simp only [Option.some.injEq] at h
        rw [← h]
        simp
  · simp only [Option.some.injEq] at h
    rw [← h]

theorem unwindGo_ne_fuelOut (ext : Externals) (data : List Char) :
    ∀ (fuel pos : Nat) (msg : Message) (mstack : List Message)
      (state : MessageParserState) (sstack : List MessageParserState),
      sstack.length < fuel →
      unwindGo ext data fuel pos msg mstack state sstack ≠ UnwindRes.fuelOutU := by
  intro fuel
  induction fuel with
  | zero => intro pos msg mstack state sstack h; omega
  | succ n ih =>
    intro pos msg mstack state sstack hlen
    simp only [unwindGo]
    split
    · simp
    · next r heq =>
      have hle := unwindStep1_stack_le msg mstack state sstack _ heq
      split
      · split
        · split
          · split
            · next pos2 hseek =>
              apply ih
              simp only [List.length_cons] at hle
              omega
            · simp
          · simp
        · simp
      · simp


theorem recoverZeroRead_pos_ge (data : List Char) (pos : Nat) (is_binary : Bool)
    (bnd : Option (List Char)) (rp : DecodeResult × Nat)
    (h : recoverZeroRead data pos is_binary bnd = some rp) : pos ≤ rp.2 := by
  unfold recoverZeroRead at h
  dsimp only at h
  split_ifs at h <;>
    first
      | (simp at h; done)
      | (simp only [Option.some.injEq] at h
         rw [← h]
         exact Nat.le_add_right pos _)

theorem applyRecovery_pos_ge (data : List Char) (pos : Nat) (is_binary : Bool)
    (bnd : Option (List Char)) (r : MimeType × Bool × Bool × DecodeResult × Nat)
    (h : applyRecovery data pos is_binary bnd = some r) : pos ≤ r.2.2.2.2 := by
  unfold applyRecovery at h
  cases hr : recoverZeroRead data pos is_binary bnd with
  | none => simp [hr] at h
  | some rp =>
    have hge := recoverZeroRead_pos_ge data pos is_binary bnd rp hr
    simp only [hr, Option.map] at h
    simp only [Option.some.injEq] at h
    rw [← h]
    exact hge

theorem leafStep_ne_fuelOut (ext : Externals) (data : List Char) (st : MachineState)
    (hdr : Headers) (ct : Option ContentType) (mt0 : MimeType) (i0 t0 : Bool) :
    leafStep ext data st hdr ct mt0 i0 t0 ≠ StepRes.fuelOut := by
  unfold leafStep
  dsimp only
  split
  · simp
  · split
    · split
      · simp
      · simp
      · next heq =>
        exact absurd heq (unwindGo_ne_fuelOut ext data _ _ _ _ _ _ (by omega))
    · split <;> simp

theorem leafStep_cont_pos_ge (ext : Externals) (data : List Char) (st : MachineState)
    (hdr : Headers) (ct : Option ContentType) (mt0 : MimeType) (i0 t0 : Bool)
    (st2 : MachineState) (h : leafStep ext data st hdr ct mt0 i0 t0 = StepRes.cont st2) :
    st.pos ≤ st2.pos := by
  have hsc := skip_crlf_ge data st.pos
  unfold leafStep at h
  dsimp only at h
  split at h
  · simp at h
  · next mt i1 t1 bytes pos2 heq =>
    have hp2 : skip_crlf data st.pos ≤ pos2 := by
      split at heq
      · exact applyRecovery_pos_ge data (skip_crlf data st.pos) _ _ _ heq
      · simp only [Option.some.injEq, Prod.mk.injEq] at heq
        omega
    split at h
    · split at h
      · simp at h
      · next p2 msg2 mstack2 state2 sstack2 hun =>
        simp only [StepRes.cont.injEq] at h
        have hge := unwindGo_pos_ge ext data (st.state_stack.length + 1) pos2
          (classifyAndPlace ext data bytes hdr ct mt i1 t1 st.state st.mime_part_header
            st.message).1
          st.message_stack
          (classifyAndPlace ext data bytes hdr ct mt i1 t1 st.state st.mime_part_header
            st.message).2.2
          st.state_stack p2 (by rw [hun]; rfl)
        rw [← h]
        dsimp only
        omega
      · simp at h
    · split at h
      · simp at h
      · simp only [StepRes.cont.injEq] at h
        rw [← h]
        dsimp only
        omega


theorem parse_headers_true_strict (data : List Char) (hs : Headers) (pos : Nat)
    (h : (parse_headers hs data pos).1 = true) :
    pos < (parse_headers hs data pos).2.2 ∧ pos < data.length :=
  parseHeadersGo_true_strict data (data.length + 1) pos hs h

theorem parseLoop_isSome (ext : Externals) (data : List Char) :
    ∀ (fuel : Nat) (st : MachineState),
      data.length + 1 - st.pos < fuel →
      (parseLoop ext data fuel st).isSome = true := by
  intro fuel
  induction fuel with
  | zero => intro st h; omega
  | succ n ih =>
    intro st hfuel
    simp only [parseLoop]
    split
    all_goals
      split
      · rfl
      · next hok =>
        simp at hok
        have hstrict := parse_headers_true_strict data _ st.pos hok
        split
        · split
          · split
            · next pos2 hseek =>
              have hge := seekNextPart_ge data _ _ _ hseek
              dsimp only at hge
              have hsc := skip_crlf_ge data pos2
              apply ih
              dsimp only
              omega
            · split
              · simp
              · next st2 hcont =>
                have hge := leafStep_cont_pos_ge ext data _ _ _ _ _ _ _ hcont
                dsimp only at hge
                apply ih
                omega
              · next hfo =>
                exact absurd hfo (leafStep_ne_fuelOut ext data _ _ _ _ _ _)
          · split
            · simp
            · next st2 hcont =>
              have hge := leafStep_cont_pos_ge ext data _ _ _ _ _ _ _ hcont
              dsimp only at hge
              apply ih
              omega
            · next hfo =>
              exact absurd hfo (leafStep_ne_fuelOut ext data _ _ _ _ _ _)
        · split
          · have h3 := lt_of_lt_of_le hstrict.1 (skip_crlf_ge data _)
            apply ih
            dsimp only
            omega
          · split
            · simp
            · next st2 hcont =>
              have hge := leafStep_cont_pos_ge ext data _ _ _ _ _ _ _ hcont
              dsimp only at hge
              apply ih
              omega
            · next hfo =>
              exact absurd hfo (leafStep_ne_fuelOut ext data _ _ _ _ _ _)

/-- C9: for every external instantiation and every input, the traversal engine's
outer loop completes within `|B| + 2` iterations (each iteration strictly advances
the cursor, and the unwind loop pops the state stack): `parseLoop` never exhausts
its fuel, so `parse` terminates by construction on every input; in the total
shallow embedding every operation of the machine is defined on all inputs, which
is the statable counterpart of the source's never-panics guarantee. -/
theorem parse_terminates (ext : Externals) (data : List Char) :
    (parseLoop ext data (data.length + 2) initMachine).isSome = true := by
  apply parseLoop_isSome
  simp [initMachine]


/-! ### Well-formedness preservation -/

theorem WFMessage_inv (h : Headers) (hb tb : List InlinePart) (att : List MessagePart)
    (hw : WFMessage (Message.mk h hb tb att)) :
    (∀ i, InlinePart.InlineBinary i ∈ hb → i < att.length)
    ∧ (∀ i, InlinePart.InlineBinary i ∈ tb → i < att.length)
    ∧ (∀ m, MessagePart.Msg m ∈ att → WFMessage m) := by
  cases hw with
  | intro h0 hb0 tb0 att0 hhb htb hrec => exact ⟨hhb, htb, hrec⟩

theorem WFMessage_empty : WFMessage Message.empty := by
  constructor <;> simp

theorem WF_setHeaders (m : Message) (h : Headers) (hw : WFMessage m) :
    WFMessage (m.setHeaders h) := by
  obtain ⟨mh, hb, tb, att⟩ := m
  obtain ⟨h1, h2, h3⟩ := WFMessage_inv mh hb tb att hw
  exact WFMessage.intro h hb tb att h1 h2 h3

theorem WF_pushHtml_text (m : Message) (t : TextPart) (hw : WFMessage m) :
    WFMessage (m.pushHtml (InlinePart.Text t)) := by
  obtain ⟨mh, hb, tb, att⟩ := m
  obtain ⟨h1, h2, h3⟩ := WFMessage_inv mh hb tb att hw
  refine WFMessage.intro mh _ tb att ?_ h2 h3
  intro i hi
  rcases List.mem_append.mp hi with hold | hnew
  · exact h1 i hold
  · simp at hnew

theorem WF_pushTextB_text (m : Message) (t : TextPart) (hw : WFMessage m) :
    WFMessage (m.pushTextB (InlinePart.Text t)) := by
  obtain ⟨mh, hb, tb, att⟩ := m
  obtain ⟨h1, h2, h3⟩ := WFMessage_inv mh hb tb att hw
  refine WFMessage.intro mh hb _ att h1 ?_ h3
  intro i hi
  rcases List.mem_append.mp hi with hold | hnew
  · exact h2 i hold
  · simp at hnew

theorem WF_pushAttachment (m : Message) (p : MessagePart) (hw : WFMessage m)
    (hp : ∀ m2, p = MessagePart.Msg m2 → WFMessage m2) :
    WFMessage (m.pushAttachment p) := by
  obtain ⟨mh, hb, tb, att⟩ := m
  obtain ⟨h1, h2, h3⟩ := WFMessage_inv mh hb tb att hw
  refine WFMessage.intro mh hb tb _ ?_ ?_ ?_
  · intro i hi
    have := h1 i hi
    simp
    omega
  · intro i hi
    have := h2 i hi
    simp
    omega
  · intro m2 hm2
    rcases List.mem_append.mp hm2 with hold | hnew
    · exact h3 m2 hold
    · simp at hnew
      exact hp m2 hnew.symm

theorem WF_push_binary (mh : Headers) (hb tb : List InlinePart) (att : List MessagePart)
    (p : MessagePart) (ah at2 : Bool)
    (hw : WFMessage (Message.mk mh hb tb att))
    (hp : ∀ m2, p ≠ MessagePart.Msg m2) :
    WFMessage (Message.mk mh
      (if ah then hb ++ [InlinePart.InlineBinary att.length] else hb)
      (if at2 then tb ++ [InlinePart.InlineBinary att.length] else tb)
      (att ++ [p])) := by
  obtain ⟨h1, h2, h3⟩ := WFMessage_inv mh hb tb att hw
  refine WFMessage.intro _ _ _ _ ?_ ?_ ?_
  · intro i hi
    simp only [List.length_append, List.length_singleton]
    split_ifs at hi with hah
    · rcases List.mem_append.mp hi with hold | hnew
      · have := h1 i hold
        omega
      · simp only [List.mem_singleton, InlinePart.InlineBinary.injEq] at hnew
        omega
    · have := h1 i hi
      omega
  · intro i hi
    simp only [List.length_append, List.length_singleton]
    split_ifs at hi with hat
    · rcases List.mem_append.mp hi with hold | hnew
      · have := h2 i hold
        omega
      · simp only [List.mem_singleton, InlinePart.InlineBinary.injEq] at hnew
        omega
    · have := h2 i hi
      omega
  · intro m2 hm2
    rcases List.mem_append.mp hm2 with hold | hnew
    · exact h3 m2 hold
    · simp only [List.mem_singleton] at hnew
      exact absurd hnew.symm (hp m2)

theorem WF_placeLeaf (ext : Externals) (data : List Char) (bytes : DecodeResult)
    (ct : Option ContentType) (mt : MimeType) (is_text is_inline ah at2 : Bool)
    (mph : Headers) (msg : Message) (hw : WFMessage msg) :
    WFMessage (placeLeaf ext data bytes ct mt is_text is_inline ah at2 mph msg).1 := by
  unfold placeLeaf
  split
  · -- text leaf: a chain of Text pushes
    dsimp only
    split_ifs <;>
      first
        | exact WF_pushAttachment _ _ (WF_pushHtml_text _ _ hw) (by intro m2 hm2; cases hm2)
        | exact WF_pushAttachment _ _ (WF_pushTextB_text _ _ hw) (by intro m2 hm2; cases hm2)
        | exact WF_pushHtml_text _ _ (WF_pushHtml_text _ _ hw)
        | exact WF_pushHtml_text _ _ (WF_pushTextB_text _ _ hw)
        | exact WF_pushHtml_text _ _ hw
        | exact WF_pushTextB_text _ _ (WF_pushHtml_text _ _ hw)
        | exact WF_pushTextB_text _ _ (WF_pushTextB_text _ _ hw)
        | exact WF_pushTextB_text _ _ hw
        | exact WF_pushAttachment _ _ hw (by intro m2 hm2; cases hm2)
  · -- binary leaf
    dsimp only
    obtain ⟨mh, hb, tb, att⟩ := msg
    split_ifs with hah hat hat <;>
      simp only [Message.pushHtml, Message.pushTextB, Message.pushAttachment,
        Message.attachments] <;>
      first
        | exact WF_push_binary mh hb tb att _ true true hw (by intro m2 hm2; cases hm2)
        | exact WF_push_binary mh hb tb att _ true false hw (by intro m2 hm2; cases hm2)
        | exact WF_push_binary mh hb tb att _ false true hw (by intro m2 hm2; cases hm2)
        | exact WF_push_binary mh hb tb att _ false false hw (by intro m2 hm2; cases hm2)


theorem WF_mirror_text (mh : Headers) (hb tb : List InlinePart) (att : List MessagePart)
    (k : Nat) (g : TextPart → TextPart) (hw : WFMessage (Message.mk mh hb tb att)) :
    WFMessage (Message.mk mh hb
      (tb ++ (hb.drop k).map (fun p => match p with
        | InlinePart.Text t => InlinePart.Text (g t)
        | InlinePart.InlineBinary i => InlinePart.InlineBinary i)) att) := by
  obtain ⟨h1, h2, h3⟩ := WFMessage_inv mh hb tb att hw
  refine WFMessage.intro _ _ _ _ h1 ?_ h3
  intro i hi
  rcases List.mem_append.mp hi with hold | hnew
  · exact h2 i hold
  · obtain ⟨x, hx, hfx⟩ := List.mem_map.mp hnew
    have hxh : x ∈ hb := List.drop_subset k hb hx
    cases x with
    | Text t => simp at hfx
    | InlineBinary j =>
      simp only [InlinePart.InlineBinary.injEq] at hfx
      rw [← hfx]
      exact h1 j hxh

theorem WF_mirror_html (mh : Headers) (hb tb : List InlinePart) (att : List MessagePart)
    (k : Nat) (g : TextPart → TextPart) (hw : WFMessage (Message.mk mh hb tb att)) :
    WFMessage (Message.mk mh
      (hb ++ (tb.drop k).map (fun p => match p with
        | InlinePart.Text t => InlinePart.Text (g t)
        | InlinePart.InlineBinary i => InlinePart.InlineBinary i)) tb att) := by
  obtain ⟨h1, h2, h3⟩ := WFMessage_inv mh hb tb att hw
  refine WFMessage.intro _ _ _ _ ?_ h2 h3
  intro i hi
  rcases List.mem_append.mp hi with hold | hnew
  · exact h1 i hold
  · obtain ⟨x, hx, hfx⟩ := List.mem_map.mp hnew
    have hxh : x ∈ tb := List.drop_subset k tb hx
    cases x with
    | Text t => simp at hfx
    | InlineBinary j =>
      simp only [InlinePart.InlineBinary.injEq] at hfx
      rw [← hfx]
      exact h2 j hxh

theorem WF_synthesize (ext : Externals) (state : MessageParserState) (m : Message)
    (hw : WFMessage m) : WFMessage (synthesize ext state m) := by
  obtain ⟨mh, hb, tb, att⟩ := m
  unfold synthesize
  dsimp only
  split_ifs <;>
    first
      | exact WF_mirror_html _ _ _ _ _ _ (WF_mirror_text _ _ _ _ _ _ hw)
      | exact WF_mirror_html _ _ _ _ _ _ hw
      | exact WF_mirror_text _ _ _ _ _ _ hw
      | exact hw

theorem unwindStep1_WF (msg : Message) (mstack : List Message)
    (state : MessageParserState) (sstack : List MessageParserState)
    (r : Message × List Message × MessageParserState × List MessageParserState)
    (heq : unwindStep1 msg mstack state sstack = some r)
    (hw : WFMessage msg) (hs : ∀ m ∈ mstack, WFMessage m) :
    WFMessage r.1 ∧ ∀ m ∈ r.2.1, WFMessage m := by
  unfold unwindStep1 at heq
  split at heq
  · cases mstack with
    | nil => cases sstack <;> simp at heq
    | cons pm pms =>
      cases sstack with
      | nil => simp at heq
      | cons ps pss =>
        simp only [Option.some.injEq] at heq
        rw [← heq]
        refine ⟨?_, ?_⟩
        · refine WF_pushAttachment pm _ (hs pm (by simp)) ?_
          intro m2 hm2
          injection hm2 with h
          rw [← h]
          exact hw
        · intro m hm
          exact hs m (List.mem_cons_of_mem pm hm)
  · simp only [Option.some.injEq] at heq
    rw [← heq]
    exact ⟨hw, hs⟩

theorem unwindGo_WF (ext : Externals) (data : List Char) :
    ∀ (fuel pos : Nat) (msg : Message) (mstack : List Message)
      (state : MessageParserState) (sstack : List MessageParserState),
      WFMessage msg → (∀ m ∈ mstack, WFMessage m) →
      ∀ (res : UnwindRes), unwindGo ext data fuel pos msg mstack state sstack = res →
        (∀ p m2 ms2 s2 ss2, res = UnwindRes.brkU p m2 ms2 s2 ss2 →
          WFMessage m2 ∧ ∀ m ∈ ms2, WFMessage m)
        ∧ (∀ p m2 ms2 s2 ss2, res = UnwindRes.contU p m2 ms2 s2 ss2 →
          WFMessage m2 ∧ ∀ m ∈ ms2, WFMessage m) := by
  intro fuel
  induction fuel with
  | zero =>
    intro pos msg mstack state sstack hw hs res hres
    simp only [unwindGo] at hres
    rw [← hres]
    constructor <;> intro p m2 ms2 s2 ss2 h <;> cases h
  | succ n ih =>
    intro pos msg mstack state sstack hw hs res hres
    simp only [unwindGo] at hres
    split at hres
    · -- step1 underflow
      rw [← hres]
      constructor <;> intro p m2 ms2 s2 ss2 h
      · cases h
        exact ⟨hw, fun m hm => hs m (List.tail_subset mstack hm)⟩
      · cases h
    · next msg1 mstack1 state1 sstack1 heq =>
      obtain ⟨hw1, hs1⟩ := unwindStep1_WF msg mstack state sstack
        (msg1, mstack1, state1, sstack1) heq hw hs
      split at hres
      · -- terminal boundary marker
        have hwS : WFMessage (if state1.mime_type == MimeType.MultipartAlernative
              && state1.need_html_body && state1.need_text_body then
            synthesize ext state1 msg1 else msg1) := by
          split_ifs
          · exact WF_synthesize ext _ _ hw1
          · exact hw1
        split at hres
        · split at hres
          · split at hres
            · exact ih _ _ _ _ _ hwS hs1 _ hres
            · rw [← hres]
              constructor <;> intro p m2 ms2 s2 ss2 h
              · cases h
                exact ⟨hwS, hs1⟩
              · cases h
          · rw [← hres]
            constructor <;> intro p m2 ms2 s2 ss2 h
            · cases h
              exact ⟨hwS, hs1⟩
            · cases h
        · rw [← hres]
          constructor <;> intro p m2 ms2 s2 ss2 h
          · cases h
            exact ⟨hwS, hs1⟩
          · cases h
      · -- next sibling
        rw [← hres]
        constructor <;> intro p m2 ms2 s2 ss2 h
        · cases h
        · cases h
          exact ⟨hw1, hs1⟩

theorem classifyAndPlace_WF (ext : Externals) (data : List Char) (bytes : DecodeResult)
    (hdr : Headers) (ct : Option ContentType) (mt : MimeType) (i1 t1 : Bool)
    (state : MessageParserState) (mph : Headers) (msg : Message) (hw : WFMessage msg) :
    WFMessage (classifyAndPlace ext data bytes hdr ct mt i1 t1 state mph msg).1 := by
  unfold classifyAndPlace
  exact WF_placeLeaf ext data bytes ct mt t1 _ _ _ mph msg hw

theorem leafStep_WF (ext : Externals) (data : List Char) (st : MachineState)
    (hdr : Headers) (ct : Option ContentType) (mt0 : MimeType) (i0 t0 : Bool)
    (hw : WFMessage st.message) (hs : ∀ m ∈ st.message_stack, WFMessage m) :
    ∀ (res : StepRes), leafStep ext data st hdr ct mt0 i0 t0 = res →
      (∀ st2, res = StepRes.brk st2 →
        WFMessage st2.message ∧ ∀ m ∈ st2.message_stack, WFMessage m)
      ∧ (∀ st2, res = StepRes.cont st2 →
        WFMessage st2.message ∧ ∀ m ∈ st2.message_stack, WFMessage m) := by
  intro res hres
  unfold leafStep at hres
  dsimp only at hres
  split at hres
  · rw [← hres]
    constructor <;> intro st2 h
    · cases h
      exact ⟨hw, hs⟩
    · cases h
  · next mt i1 t1 bytes pos2 heq =>
    have hw2 := classifyAndPlace_WF ext data bytes hdr ct mt i1 t1 st.state
      st.mime_part_header st.message hw
    split at hres
    · split at hres
      · next p2 m2 ms2 s2 ss2 hun =>
        have hWF := unwindGo_WF ext data (st.state_stack.length + 1) pos2
          (classifyAndPlace ext data bytes hdr ct mt i1 t1 st.state st.mime_part_header
            st.message).1 st.message_stack
          (classifyAndPlace ext data bytes hdr ct mt i1 t1 st.state st.mime_part_header
            st.message).2.2 st.state_stack hw2 hs _ hun
        obtain ⟨hwp, hsp⟩ := hWF.1 p2 m2 ms2 s2 ss2 rfl
        rw [← hres]
        constructor <;> intro st2 h
        · cases h
          exact ⟨hwp, hsp⟩
        · cases h
      · next p2 m2 ms2 s2 ss2 hun =>
        have hWF := unwindGo_WF ext data (st.state_stack.length + 1) pos2
          (classifyAndPlace ext data bytes hdr ct mt i1 t1 st.state st.mime_part_header
            st.message).1 st.message_stack
          (classifyAndPlace ext data bytes hdr ct mt i1 t1 st.state st.mime_part_header
            st.message).2.2 st.state_stack hw2 hs _ hun
        obtain ⟨hwp, hsp⟩ := hWF.2 p2 m2 ms2 s2 ss2 rfl
        rw [← hres]
        constructor <;> intro st2 h
        · cases h
        · cases h
          exact ⟨hwp, hsp⟩
      · rw [← hres]
        constructor <;> intro st2 h <;> cases h
    · split at hres
      · rw [← hres]
        constructor <;> intro st2 h
        · cases h
          exact ⟨hw2, hs⟩
        · cases h
      · rw [← hres]
        constructor <;> intro st2 h
        · cases h
        · cases h
          exact ⟨hw2, hs⟩


theorem parseLoop_WF (ext : Externals) (data : List Char) :
    ∀ (fuel : Nat) (st stF : MachineState),
      WFMessage st.message → (∀ m ∈ st.message_stack, WFMessage m) →
      parseLoop ext data fuel st = some stF →
      WFMessage stF.message ∧ ∀ m ∈ stF.message_stack, WFMessage m := by
  intro fuel
  induction fuel with
  | zero => intro st stF _ _ h; simp [parseLoop] at h
  | succ n ih =>
    intro st stF hw hs h
    simp only [parseLoop] at h
    split at h
    ·
      split at h
      · simp only [Option.some.injEq] at h
        rw [← h]
        exact ⟨(WF_setHeaders st.message _ hw), hs⟩
      · split at h
        · split at h
          · split at h
            · refine ih _ _ ?_ ?_ h
              · exact WF_setHeaders st.message _ hw
              · exact hs
            · split at h
              · next st2 hls =>
                simp only [Option.some.injEq] at h
                rw [← h]
                exact (leafStep_WF ext data _ _ _ _ _ _ (by exact WF_setHeaders st.message _ hw) (by exact hs) _ hls).1 st2 rfl
              · next st2 hls =>
                have hWF := (leafStep_WF ext data _ _ _ _ _ _ (by exact WF_setHeaders st.message _ hw) (by exact hs) _ hls).2 st2 rfl
                exact ih _ _ hWF.1 hWF.2 h
              · simp at h
          · split at h
            · next st2 hls =>
              simp only [Option.some.injEq] at h
              rw [← h]
              exact (leafStep_WF ext data _ _ _ _ _ _ (by exact WF_setHeaders st.message _ hw) (by exact hs) _ hls).1 st2 rfl
            · next st2 hls =>
              have hWF := (leafStep_WF ext data _ _ _ _ _ _ (by exact WF_setHeaders st.message _ hw) (by exact hs) _ hls).2 st2 rfl
              exact ih _ _ hWF.1 hWF.2 h
            · simp at h
        · split at h
          · refine ih _ _ WFMessage_empty ?_ h
            intro m hm
            rcases List.mem_cons.mp hm with h1 | h2
            · rw [h1]
              exact (WF_setHeaders st.message _ hw)
            · exact hs m h2
          · split at h
            · next st2 hls =>
              simp only [Option.some.injEq] at h
              rw [← h]
              exact (leafStep_WF ext data _ _ _ _ _ _ (by exact WF_setHeaders st.message _ hw) (by exact hs) _ hls).1 st2 rfl
            · next st2 hls =>
              have hWF := (leafStep_WF ext data _ _ _ _ _ _ (by exact WF_setHeaders st.message _ hw) (by exact hs) _ hls).2 st2 rfl
              exact ih _ _ hWF.1 hWF.2 h
            · simp at h
    ·
      split at h
      · simp only [Option.some.injEq] at h
        rw [← h]
        exact ⟨hw, hs⟩
      · split at h
        · split at h
          · split at h
            · refine ih _ _ ?_ ?_ h
              · exact hw
              · exact hs
            · split at h
              · next st2 hls =>
                simp only [Option.some.injEq] at h
                rw [← h]
                exact (leafStep_WF ext data _ _ _ _ _ _ (by exact hw) (by exact hs) _ hls).1 st2 rfl
              · next st2 hls =>
                have hWF := (leafStep_WF ext data _ _ _ _ _ _ (by exact hw) (by exact hs) _ hls).2 st2 rfl
                exact ih _ _ hWF.1 hWF.2 h
              · simp at h
          · split at h
            · next st2 hls =>
              simp only [Option.some.injEq] at h
              rw [← h]
              exact (leafStep_WF ext data _ _ _ _ _ _ (by exact hw) (by exact hs) _ hls).1 st2 rfl
            · next st2 hls =>
              have hWF := (leafStep_WF ext data _ _ _ _ _ _ (by exact hw) (by exact hs) _ hls).2 st2 rfl
              exact ih _ _ hWF.1 hWF.2 h
            · simp at h
        · split at h
          · refine ih _ _ WFMessage_empty ?_ h
            intro m hm
            rcases List.mem_cons.mp hm with h1 | h2
            · rw [h1]
              exact hw
            · exact hs m h2
          · split at h
            · next st2 hls =>
              simp only [Option.some.injEq] at h
              rw [← h]
              exact (leafStep_WF ext data _ _ _ _ _ _ (by exact hw) (by exact hs) _ hls).1 st2 rfl
            · next st2 hls =>
              have hWF := (leafStep_WF ext data _ _ _ _ _ _ (by exact hw) (by exact hs) _ hls).2 st2 rfl
              exact ih _ _ hWF.1 hWF.2 h
            · simp at h


theorem finishMachine_WF (st : MachineState) (hw : WFMessage st.message)
    (hs : ∀ m ∈ st.message_stack, WFMessage m) : WFMessage (finishMachine st) := by
  unfold finishMachine
  have hgen : ∀ (l : List Message) (msg : Message), WFMessage msg →
      (∀ m ∈ l, WFMessage m) →
      WFMessage (l.foldl
        (fun msg prev => if msg.is_empty then prev else prev.pushAttachment (MessagePart.Msg msg))
        msg) := by
    intro l
    induction l with
    | nil => intro msg hw2 _; exact hw2
    | cons pm pms ihl =>
      intro msg hw2 hs2
      simp only [List.foldl]
      apply ihl
      · split_ifs
        · exact hs2 pm (by simp)
        · refine WF_pushAttachment pm _ (hs2 pm (by simp)) ?_
          intro m2 hm2
          injection hm2 with hmm
          rw [← hmm]
          exact hw2
      · intro m hm
        exact hs2 m (List.mem_cons_of_mem pm hm)
  exact hgen st.message_stack st.message hw hs

/-- C7: for every externals instantiation and input buffer, `parse` either returns
no message or a Message in which, at every nesting level, every
`InlinePart.InlineBinary i` stored in html_body or text_body satisfies
`i < attachments.length` of that level — the index is the attachments length at
the moment of insertion and attachments are append-only during a parse. -/
theorem parse_inline_binary_indices_valid (ext : Externals) (data : List Char)
    (m : Message) (h : Message.parse ext data = some m) : WFMessage m := by
  unfold Message.parse at h
  cases hp : parseLoop ext data (data.length + 2) initMachine with
  | none => rw [hp] at h; cases h
  | some st =>
    rw [hp] at h
    have hWF := parseLoop_WF ext data (data.length + 2) initMachine st
      WFMessage_empty (by simp [initMachine]) hp
    simp only [] at h
    split_ifs at h
    cases h
    exact finishMachine_WF st hWF.1 hWF.2

/-- Witness for `parse_inline_binary_indices_valid`: the parsed plain-text message
is well formed. -/
theorem parse_inline_binary_indices_valid_witness :
    WFMessage (Message.mk [("subject", "hi")]
      [InlinePart.Text ⟨none, extId.text_to_html "hello\n"⟩]
      [InlinePart.Text ⟨none, "hello\n"⟩] []) :=
  parse_inline_binary_indices_valid extId inputPlainText _ rfl


/-- Witness for `get_mime_type_matches_spec_table`: the parent-driven default. -/
theorem get_mime_type_matches_spec_table_witness :
    get_mime_type none MimeType.MultipartDigest = specMimeTable none MimeType.MultipartDigest :=
  get_mime_type_matches_spec_table none MimeType.MultipartDigest

/-- Witness for `refineInline_iff`: a first-position text/plain leaf without
disposition is inline. -/
theorem refineInline_iff_witness :
    refineInline true [] MessageParserState.new MimeType.TextPlain none = true :=
  (refineInline_iff true [] MessageParserState.new MimeType.TextPlain none).mpr
    ⟨rfl, fun d hd => Option.noConfusion hd,
      Or.inr ⟨by decide, Or.inr (fun c hc => Option.noConfusion hc)⟩⟩

/-- Witness for `parse_plain_text_amended` at the identity converters. -/
theorem parse_plain_text_amended_witness :
    Message.parse extId inputPlainText =
      some (Message.mk [("subject", "hi")]
        [InlinePart.Text ⟨none, extId.text_to_html "hello\n"⟩]
        [InlinePart.Text ⟨none, "hello\n"⟩] []) :=
  parse_plain_text_amended extId

/-- Witness for `parse_terminates` on a concrete input. -/
theorem parse_terminates_witness :
    (parseLoop extId inputPlainText (inputPlainText.length + 2) initMachine).isSome = true :=
  parse_terminates extId inputPlainText


end MailParser
